import Mathlib

/-!
Verification of the rfs-fuse inode-identity and request-translation layer.

Shallow embedding of `src/fs.rs`, `src/main.rs` and `src/error.rs` of the
`rfs-fuse` crate, together with proofs of the claims of the specification.

Modelling conventions:
* A `PathBuf` built from the root `/` by repeated `join` of child names is
  modelled as the list of its components below the root (`FPath`); the root is
  `[]`, `parent()` (with `unwrap_or("/")`) is `List.dropLast`, `join` appends a
  component, and `file_name().unwrap_or_default()` is `getLast?` with default
  `""`.
* The two `HashMap`s of `RfsFuse` are modelled as association lists with
  first-match lookup (`mapGet`) and insertion by prepending.  The code only
  ever inserts a key that is absent (checked for `paths`; for `inodes` the
  inserted key is the fresh `next_inode`), so prepend-insertion agrees with
  `HashMap::insert`.
* `u64` entry sizes wrap: `blocks` is computed exactly as the Rust
  `(size + 511) / 512` on `u64`, i.e. modulo `2 ^ 64`.  The `next_inode`
  counter is modelled as an unbounded `Nat`: wrapping it would require
  `2 ^ 64` allocations, each of which also inserts a fresh path into the
  in-memory table, which no execution can reach.
* `SystemTime::now()`, `Uid::current()` and `Gid::current()` are parameters
  (`now`, `uid`, `gid`) of the translation functions.
* The asynchronous backend call `librfs::list_directory(pool_root, path)` is a
  parameter of each handler: a function from the pool root and the rendered
  path string to `Except Unit Listing` (`Err` payloads are never inspected by
  the code).  A listing (the ordered name → entry mapping of the backend) is an
  association list.
* FUSE reply objects are modelled by their observable outcome: the error code
  or the delivered payload, and for `readdir` the buffered entry list with a
  capacity `cap` (the fuser `ReplyDirectory::add` returns `true` and drops the
  entry when the buffer is full).
-/

namespace RfsFuseModel

/-- A filesystem path as the list of components below the mount root;
the root `/` is `[]`. -/
abbrev FPath := List String

/-- Rendering of a path as the string handed to `list_directory`
(`path.to_str().unwrap_or("/")`): `/` for the root, `/a/b` otherwise. -/
def pathToStr (p : FPath) : String :=
  "/" ++ String.intercalate "/" p

/-- First-match association-list lookup, the model of `HashMap::get`. -/
def mapGet {α β : Type} [DecidableEq α] : List (α × β) → α → Option β
  | [], _ => none
  | (a, b) :: rest, k => if a = k then some b else mapGet rest k

/-- Payload of a `librfs` entry: byte size (`u64`) and modification time. -/
structure EntryMeta where
  size : Nat
  modified_at : Nat
deriving DecidableEq

/-- `librfs::model::Entry`: a directory child is a file or a directory. -/
inductive Entry where
  | File (f : EntryMeta)
  | Directory (d : EntryMeta)
deriving DecidableEq

/-- `fuser::FileType`, restricted to the two variants the code produces. -/
inductive FileType where
  | RegularFile
  | Directory
deriving DecidableEq

/-- The kind reported for an entry (the `match` at fs.rs:64-67 and 206-209). -/
def entryKind : Entry → FileType
  | .File _ => .RegularFile
  | .Directory _ => .Directory

/-- The size field carried by an entry. -/
def entrySize : Entry → Nat
  | .File f => f.size
  | .Directory d => d.size

/-- The modification time carried by an entry. -/
def entryMtime : Entry → Nat
  | .File f => f.modified_at
  | .Directory d => d.modified_at

/-- `fuser::FileAttr` as filled in by this crate. -/
structure FileAttr where
  ino : Nat
  size : Nat
  blocks : Nat
  atime : Nat
  mtime : Nat
  ctime : Nat
  crtime : Nat
  kind : FileType
  perm : Nat
  nlink : Nat
  uid : Nat
  gid : Nat
  rdev : Nat
  flags : Nat
  blksize : Nat
deriving DecidableEq

/-- `libc::ENOENT` ("no such entry"). -/
def ENOENT : Nat := 2

/-- `libc::EIO` (I/O failure). -/
def EIO : Nat := 5

/-- `TTL` (fs.rs:16): the attribute/entry cache validity, in seconds. -/
def TTL : Nat := 1

/-- `ROOT_INODE` (fs.rs:17). -/
def ROOT_INODE : Nat := 1

/-- `RfsFuse::entry_to_attr` (fs.rs:63-86).  `now`, `uid` and `gid` stand for
`SystemTime::now()`, `Uid::current()` and `Gid::current()`; the `u64` block
computation `(size + 511) / 512` wraps modulo `2 ^ 64`. -/
def entry_to_attr (now uid gid : Nat) (ino : Nat) (entry : Entry) : FileAttr :=
  let kind := entryKind entry
  let size := entrySize entry
  let modified_at := entryMtime entry
  { ino := ino
    size := size
    blocks := ((size + 511) % 2 ^ 64) / 512
    atime := now
    mtime := modified_at
    ctime := modified_at
    crtime := modified_at
    kind := kind
    perm := if kind = FileType.Directory then 0o755 else 0o644
    nlink := 1
    uid := uid
    gid := gid
    rdev := 0
    flags := 0
    blksize := 512 }

/-- The fixed root attributes built inline in `getattr` (fs.rs:101-117). -/
def rootAttr (now uid gid : Nat) : FileAttr :=
  { ino := ROOT_INODE
    size := 4096
    blocks := 8
    atime := now
    mtime := now
    ctime := now
    crtime := now
    kind := FileType.Directory
    perm := 0o755
    nlink := 2
    uid := uid
    gid := gid
    rdev := 0
    flags := 0
    blksize := 512 }

/-- The mutable state of `RfsFuse` (fs.rs:20-27): the pool root and the
bidirectional inode table. -/
structure RfsFuse where
  pool_root : String
  inodes : List (Nat × FPath)
  paths : List (FPath × Nat)
  next_inode : Nat
deriving DecidableEq

/-- `RfsFuse::new` (fs.rs:31-48): table holding only the root entry,
allocation starting at 2. -/
def RfsFuse.new (pool_root : String) : RfsFuse :=
  { pool_root := pool_root
    inodes := [(ROOT_INODE, [])]
    paths := [([], ROOT_INODE)]
    next_inode := ROOT_INODE + 1 }

/-- `RfsFuse::get_or_create_inode` (fs.rs:51-60), returning the inode and the
updated state. -/
def get_or_create_inode (st : RfsFuse) (path : FPath) : Nat × RfsFuse :=
  match mapGet st.paths path with
  | some ino => (ino, st)
  | none =>
      let new_ino := st.next_inode
      (new_ino,
        { st with
          inodes := (new_ino, path) :: st.inodes
          paths := (path, new_ino) :: st.paths
          next_inode := new_ino + 1 })

/-- A backend listing: the ordered name → entry mapping returned by
`librfs::list_directory`. -/
abbrev Listing := List (String × Entry)

/-- The backend accessor: `list_directory(pool_root, path_str)`, which either
returns a listing or fails. -/
abbrev Backend := String → String → Except Unit Listing

/-- Outcome of a `ReplyAttr` (`getattr`): `reply.attr(&ttl, &a)` or
`reply.error(errno)`. -/
inductive AttrReply where
  | attr (ttl : Nat) (a : FileAttr)
  | error (errno : Nat)
deriving DecidableEq

/-- Outcome of a `ReplyEntry` (`lookup`): `reply.entry(&ttl, &a, generation)`
or `reply.error(errno)`. -/
inductive EntryReply where
  | entry (ttl : Nat) (a : FileAttr) (generation : Nat)
  | error (errno : Nat)
deriving DecidableEq

/-- One directory entry handed to `ReplyDirectory::add`. -/
structure DirEntry where
  ino : Nat
  offset : Int
  kind : FileType
  name : String
deriving DecidableEq

/-- Outcome of a `ReplyDirectory`: `reply.ok()` (delivering the buffered
entries) or `reply.error(errno)` (delivering none). -/
inductive DirResult where
  | ok
  | error (errno : Nat)
deriving DecidableEq

/-- Outcome of a `ReplyOpen`. -/
inductive OpenReply where
  | opened (fh : Nat) (flags : Nat)
  | error (errno : Nat)
deriving DecidableEq

/-- Outcome of a `ReplyData`. -/
inductive DataReply where
  | data (bytes : List Nat)
  | error (errno : Nat)
deriving DecidableEq

/-- `fuser::ReplyDirectory::add` with a buffer of capacity `cap` entries:
returns `true` (and drops the entry) when the buffer is full. -/
def replyAdd (cap : Nat) (es : List DirEntry) (e : DirEntry) :
    Bool × List DirEntry :=
  if cap ≤ es.length then (true, es) else (false, es ++ [e])

/-- `Filesystem::getattr` for `RfsFuse` (fs.rs:90-141).  Returns the reply and
the (unchanged) state. -/
def getattr (b : Backend) (now uid gid : Nat) (st : RfsFuse) (ino : Nat) :
    AttrReply × RfsFuse :=
  match mapGet st.inodes ino with
  | none => (.error ENOENT, st)
  | some path =>
      if ino = ROOT_INODE then
        (.attr TTL (rootAttr now uid gid), st)
      else
        let parent_path := path.dropLast
        let file_name := path.getLast?.getD ""
        match b st.pool_root (pathToStr parent_path) with
        | .ok listing =>
            match mapGet listing file_name with
            | some entry => (.attr TTL (entry_to_attr now uid gid ino entry), st)
            | none => (.error ENOENT, st)
        | .error _ => (.error EIO, st)

/-- `Filesystem::lookup` for `RfsFuse` (fs.rs:143-169).  Returns the reply and
the updated state. -/
def lookup (b : Backend) (now uid gid : Nat) (st : RfsFuse) (parent : Nat)
    (name : String) : EntryReply × RfsFuse :=
  match mapGet st.inodes parent with
  | none => (.error ENOENT, st)
  | some parent_path =>
      match b st.pool_root (pathToStr parent_path) with
      | .ok listing =>
          match mapGet listing name with
          | some entry =>
              let child_path := parent_path ++ [name]
              let r := get_or_create_inode st child_path
              (.entry TTL (entry_to_attr now uid gid r.1 entry) 0, r.2)
          | none => (.error ENOENT, st)
      | .error _ => (.error EIO, st)

/-- The child-emission loop of `readdir` (fs.rs:203-213): enumerate the
listing, allocate the inode of each child, and `reply.add` with positional offset
`i + 2`, stopping when the buffer reports full. -/
def addChildren (cap : Nat) (path : FPath) :
    Listing → Nat → List DirEntry → RfsFuse → List DirEntry × RfsFuse
  | [], _, es, st => (es, st)
  | (name, entry) :: rest, i, es, st =>
      let r := get_or_create_inode st (path ++ [name])
      let a := replyAdd cap es ⟨r.1, (i : Int) + 2, entryKind entry, name⟩
      if a.1 then (a.2, r.2) else addChildren cap path rest (i + 1) a.2 r.2

/-- `Filesystem::readdir` for `RfsFuse` (fs.rs:171-222).  Returns the result,
the entries delivered to the kernel (none when the reply is an error), and the
updated state. -/
def readdir (b : Backend) (st : RfsFuse) (ino : Nat) (offset : Int)
    (cap : Nat) : DirResult × List DirEntry × RfsFuse :=
  match mapGet st.inodes ino with
  | none => (.error ENOENT, [], st)
  | some path =>
      if offset = 0 then
        let a1 := replyAdd cap [] ⟨ino, 0, .Directory, "."⟩
        let pr : Nat × RfsFuse :=
          if ino = ROOT_INODE then (ROOT_INODE, st)
          else get_or_create_inode st path.dropLast
        let a2 := replyAdd cap a1.2 ⟨pr.1, 1, .Directory, ".."⟩
        match b st.pool_root (pathToStr path) with
        | .ok listing =>
            let c := addChildren cap path listing 0 a2.2 pr.2
            (.ok, c.1, c.2)
        | .error _ => (.error EIO, [], pr.2)
      else (.ok, [], st)

/-- `Filesystem::open` for `RfsFuse` (fs.rs:224-227): unconditionally
`reply.error(ENOENT)`, state untouched. -/
def fsOpen (st : RfsFuse) (_ino : Nat) (_flags : Int) : OpenReply × RfsFuse :=
  (.error ENOENT, st)

/-- `Filesystem::read` for `RfsFuse` (fs.rs:229-242): unconditionally
`reply.error(ENOENT)`, state untouched. -/
def fsRead (st : RfsFuse) (_ino _fh : Nat) (_offset : Int) (_size : Nat)
    (_flags : Int) (_lock_owner : Option Nat) : DataReply × RfsFuse :=
  (.error ENOENT, st)

/-! Mount orchestrator (`src/main.rs`) and errors (`src/error.rs`). -/

/-- `FuseError` (error.rs:8-20); only the message of `MountConfig` is
inspected by the claims, the other payloads are abstracted. -/
inductive FuseError where
  | Io
  | Pool
  | Metadata
  | MountConfig (msg : String)
deriving DecidableEq

/-- A pool definition as consumed by `run`: `pool_id` and backend `path`. -/
structure PoolDef where
  pool_id : Nat
  path : String
deriving DecidableEq

/-- A mount definition as consumed by `run`: `pool_id` and `mount_point`. -/
structure MountDef where
  pool_id : Nat
  mount_point : String
deriving DecidableEq

/-- The `pool_map` lookup (main.rs:52-53): a `HashMap` collected from the pool
list, so for a duplicated `pool_id` the path of the last definition wins. -/
def poolMapGet (pools : List PoolDef) (pid : Nat) : Option String :=
  (pools.reverse.find? (fun p => p.pool_id = pid)).map (fun p => p.path)

/-- The error message built at main.rs:62-65. -/
def missingPoolMsg (m : MountDef) : String :=
  "Mount point \x27" ++ m.mount_point
    ++ "\x27 references non-existent pool_id \x27"
    ++ toString m.pool_id ++ "\x27"

/-- The per-mount pool-resolution loop of `run` (main.rs:58-67): pair each
mount point with the path of its pool, failing on the first mount whose pool is
absent. -/
def resolveMounts (pools : List PoolDef) :
    List MountDef → Except FuseError (List (String × String))
  | [] => .ok []
  | m :: rest =>
      match poolMapGet pools m.pool_id with
      | some path =>
          match resolveMounts pools rest with
          | .ok l => .ok ((m.mount_point, path) :: l)
          | .error e => .error e
      | none => .error (.MountConfig (missingPoolMsg m))

/-- The configuration phase of `run` (main.rs:43-67), given the definitions
returned by `load_and_mount_pools`: `none` when no mounts are defined
(main.rs:46-49), otherwise the resolved (mount point, pool path) list; the
mounting, session collection and shutdown wait that follow are external
effects and are not modelled. -/
def runResolve (pools : List PoolDef) (mounts : List MountDef) :
    Except FuseError (Option (List (String × String))) :=
  if mounts.isEmpty then .ok none
  else (resolveMounts pools mounts).map some

/-- The exit code `main` (main.rs:36-41) produces from the outcome of `run`:
`process::exit(1)` on any error, `0` otherwise. -/
def mainExitCode (r : Except FuseError (Option (List (String × String)))) :
    Nat :=
  match r with
  | .error _ => 1
  | .ok _ => 0

/-- The child entries `readdir` emits when the reply buffer never fills: each
listed child in order, carrying the inode `get_or_create_inode` assigns to
`path ++ [name]` and positional offset `i + 2`; a proof-side companion of
`addChildren` without the buffer. -/
def emitList (path : FPath) : Listing → Nat → RfsFuse → List DirEntry × RfsFuse
  | [], _, st => ([], st)
  | (name, e) :: rest, i, st =>
      let r := get_or_create_inode st (path ++ [name])
      let t := emitList path rest (i + 1) r.2
      (⟨r.1, (i : Int) + 2, entryKind e, name⟩ :: t.1, t.2)

/-! Reachability and the identity-table invariant. -/

/-- One bare `get_or_create_inode` call, as a step relation on states. -/
def GocStep (st st' : RfsFuse) : Prop :=
  ∃ p, st' = (get_or_create_inode st p).2

/-- One handler callback (or bare `get_or_create_inode` call) as a step
relation on `RfsFuse` states. -/
inductive Step (st : RfsFuse) : RfsFuse → Prop
  | goc (p : FPath) : Step st (get_or_create_inode st p).2
  | getattr_cb (b : Backend) (now uid gid ino : Nat) :
      Step st (getattr b now uid gid st ino).2
  | lookup_cb (b : Backend) (now uid gid parent : Nat) (name : String) :
      Step st (lookup b now uid gid st parent name).2
  | readdir_cb (b : Backend) (ino : Nat) (offset : Int) (cap : Nat) :
      Step st (readdir b st ino offset cap).2.2
  | open_cb (ino : Nat) (flags : Int) : Step st (fsOpen st ino flags).2
  | read_cb (ino fh : Nat) (offset : Int) (size : Nat) (flags : Int)
      (lock_owner : Option Nat) :
      Step st (fsRead st ino fh offset size flags lock_owner).2

/-- Chains of `get_or_create_inode` calls. -/
def GocReach (st st' : RfsFuse) : Prop :=
  Relation.ReflTransGen GocStep st st'

/-- Table states reachable from a fresh `RfsFuse::new` by any sequence of
`get_or_create_inode` calls. -/
def ReachableGoc (pool_root : String) (st : RfsFuse) : Prop :=
  Relation.ReflTransGen GocStep (RfsFuse.new pool_root) st

/-- Table states reachable from a fresh `RfsFuse::new` by any sequence of
handler callbacks and `get_or_create_inode` calls. -/
def Reachable (pool_root : String) (st : RfsFuse) : Prop :=
  Relation.ReflTransGen Step (RfsFuse.new pool_root) st

/-- The identity-table invariant: the two mappings agree, every recorded
inode is below the allocation counter, the root inode resolves to `/`,
no other inode resolves to `/`, and the counter is at least 2. -/
structure Inv (st : RfsFuse) : Prop where
  agree1 : ∀ i p, mapGet st.inodes i = some p → mapGet st.paths p = some i
  agree2 : ∀ p i, mapGet st.paths p = some i → mapGet st.inodes i = some p
  fresh : ∀ i p, mapGet st.inodes i = some p → i < st.next_inode
  root_res : mapGet st.inodes ROOT_INODE = some []
  root_uniq : ∀ i, mapGet st.inodes i = some [] → i = ROOT_INODE
  two_le : 2 ≤ st.next_inode

@[simp] theorem mapGet_nil {α β : Type} [DecidableEq α] (k : α) :
    mapGet ([] : List (α × β)) k = none := rfl

@[simp] theorem mapGet_cons {α β : Type} [DecidableEq α] (a : α) (b : β)
    (rest : List (α × β)) (k : α) :
    mapGet ((a, b) :: rest) k = if a = k then some b else mapGet rest k := rfl

theorem inv_new (pool_root : String) : Inv (RfsFuse.new pool_root) := by
  constructor
  · intro i p h
    simp only [RfsFuse.new, mapGet_cons, mapGet_nil, ROOT_INODE] at h ⊢
    split at h
    · rename_i h1
      cases h
      subst h1
      simp
    · exact absurd h (by simp)
  · intro p i h
    simp only [RfsFuse.new, mapGet_cons, mapGet_nil, ROOT_INODE] at h ⊢
    split at h
    · rename_i h1
      cases h
      simp [h1]
    · exact absurd h (by simp)
  · intro i p h
    simp only [RfsFuse.new, mapGet_cons, mapGet_nil, ROOT_INODE] at h ⊢
    split at h
    · omega
    · exact absurd h (by simp)
  · simp [RfsFuse.new, ROOT_INODE]
  · intro i h
    simp only [RfsFuse.new, mapGet_cons, mapGet_nil, ROOT_INODE] at h ⊢
    split at h
    · omega
    · exact absurd h (by simp)
  · simp [RfsFuse.new, ROOT_INODE]

/-- `get_or_create_inode` on a path already in the table returns the recorded
inode and leaves the state untouched. -/
theorem goc_of_some {st : RfsFuse} {p : FPath} {i : Nat}
    (h : mapGet st.paths p = some i) : get_or_create_inode st p = (i, st) := by
  unfold get_or_create_inode
  rw [h]

/-- `get_or_create_inode` on an absent path allocates `next_inode`. -/
theorem goc_of_none {st : RfsFuse} {p : FPath}
    (h : mapGet st.paths p = none) :
    get_or_create_inode st p =
      (st.next_inode,
        { st with
          inodes := (st.next_inode, p) :: st.inodes
          paths := (p, st.next_inode) :: st.paths
          next_inode := st.next_inode + 1 }) := by
  unfold get_or_create_inode
  rw [h]

/-- After `get_or_create_inode st p`, the path → inode map sends `p` to the
returned inode. -/
theorem goc_paths_self (st : RfsFuse) (p : FPath) :
    mapGet (get_or_create_inode st p).2.paths p =
      some (get_or_create_inode st p).1 := by
  cases h : mapGet st.paths p with
  | some i => rw [goc_of_some h]; exact h
  | none => rw [goc_of_none h]; simp

/-- `get_or_create_inode` never removes or changes a path → inode binding. -/
theorem goc_paths_mono {st : RfsFuse} {q : FPath} {v : Nat} (p : FPath)
    (h : mapGet st.paths q = some v) :
    mapGet (get_or_create_inode st p).2.paths q = some v := by
  cases hp : mapGet st.paths p with
  | some i => rw [goc_of_some hp]; exact h
  | none =>
      rw [goc_of_none hp]
      simp only [mapGet_cons]
      split
      · rename_i hpq
        rw [hpq] at hp
        rw [hp] at h
        cases h
      · exact h

/-- Under the invariant, `get_or_create_inode` never removes or changes an
inode → path binding. -/
theorem goc_inodes_mono {st : RfsFuse} {i : Nat} {q : FPath} (p : FPath)
    (hinv : Inv st) (h : mapGet st.inodes i = some q) :
    mapGet (get_or_create_inode st p).2.inodes i = some q := by
  cases hp : mapGet st.paths p with
  | some j => rw [goc_of_some hp]; exact h
  | none =>
      rw [goc_of_none hp]
      simp only [mapGet_cons]
      split
      · rename_i hij
        have := hinv.fresh i q h
        omega
      · exact h

/-- `get_or_create_inode` preserves the identity-table invariant. -/
theorem inv_goc (st : RfsFuse) (p : FPath) (h : Inv st) :
    Inv (get_or_create_inode st p).2 := by
  cases hp : mapGet st.paths p with
  | some i => rw [goc_of_some hp]; exact h
  | none =>
      rw [goc_of_none hp]
      constructor
      · intro i q hq
        simp only [mapGet_cons] at hq ⊢
        split at hq
        · rename_i hi
          cases hq
          subst hi
          simp
        · have h1 := h.agree1 i q hq
          split
          · rename_i hpq
            rw [hpq] at hp
            rw [hp] at h1
            cases h1
          · exact h1
      · intro q i hq
        simp only [mapGet_cons] at hq ⊢
        split at hq
        · rename_i hpq
          cases hq
          subst hpq
          simp
        · have h2 := h.agree2 q i hq
          have hlt := h.fresh i q h2
          split
          · omega
          · exact h2
      · intro i q hq
        simp only [mapGet_cons] at hq
        show i < st.next_inode + 1
        split at hq
        · omega
        · have := h.fresh i q hq
          omega
      · have h2 := h.two_le
        simp only [mapGet_cons, ROOT_INODE]
        split
        · omega
        · exact h.root_res
      · intro i hi
        simp only [mapGet_cons] at hi
        split at hi
        · rename_i hii
          cases hi
          have hroot := h.agree1 ROOT_INODE [] h.root_res
          rw [hroot] at hp
          cases hp
        · exact h.root_uniq i hi
      · have := h.two_le
        simp only
        omega

theorem inv_gocStep {st st' : RfsFuse} (h : GocStep st st') (hinv : Inv st) :
    Inv st' := by
  obtain ⟨p, rfl⟩ := h
  exact inv_goc st p hinv

theorem inv_gocReach {st st' : RfsFuse} (h : GocReach st st') (hinv : Inv st) :
    Inv st' := by
  induction h with
  | refl => exact hinv
  | tail _ hstep ih => exact inv_gocStep hstep ih

/-- Path → inode bindings survive any chain of `get_or_create_inode` calls. -/
theorem gocReach_paths_mono {st st' : RfsFuse} (h : GocReach st st')
    {q : FPath} {v : Nat} (hq : mapGet st.paths q = some v) :
    mapGet st'.paths q = some v := by
  induction h with
  | refl => exact hq
  | tail _ hstep ih =>
      obtain ⟨p, rfl⟩ := hstep
      exact goc_paths_mono p ih

/-- Inode → path bindings survive any chain of `get_or_create_inode` calls
starting from an invariant-satisfying state. -/
theorem gocReach_inodes_mono {st st' : RfsFuse} (h : GocReach st st')
    (hinv : Inv st) {i : Nat} {q : FPath} (hq : mapGet st.inodes i = some q) :
    mapGet st'.inodes i = some q := by
  induction h with
  | tail hchain hstep ih =>
      obtain ⟨p, rfl⟩ := hstep
      exact goc_inodes_mono p (inv_gocReach hchain hinv) ih
  | refl => exact hq

/-- `getattr` never touches the identity table. -/
theorem getattr_state (b : Backend) (now uid gid : Nat) (st : RfsFuse)
    (ino : Nat) : (getattr b now uid gid st ino).2 = st := by
  unfold getattr
  dsimp only
  repeat' split
  all_goals rfl

/-- `lookup` changes the table at most by one `get_or_create_inode` call. -/
theorem lookup_gocReach (b : Backend) (now uid gid : Nat) (st : RfsFuse)
    (parent : Nat) (name : String) :
    GocReach st (lookup b now uid gid st parent name).2 := by
  unfold lookup
  split
  · exact Relation.ReflTransGen.refl
  · rename_i ppath hpp
    split
    · split
      · rename_i listing e hl
        exact Relation.ReflTransGen.single ⟨ppath ++ [name], rfl⟩
      · exact Relation.ReflTransGen.refl
    · exact Relation.ReflTransGen.refl

/-- The child-emission loop only calls `get_or_create_inode`. -/
theorem addChildren_gocReach (cap : Nat) (path : FPath) (l : Listing) :
    ∀ (i : Nat) (es : List DirEntry) (st : RfsFuse),
      GocReach st (addChildren cap path l i es st).2 := by
  induction l with
  | nil => intro i es st; exact Relation.ReflTransGen.refl
  | cons hd rest ih =>
      intro i es st
      obtain ⟨name, e⟩ := hd
      simp only [addChildren]
      split
      · exact Relation.ReflTransGen.single ⟨path ++ [name], rfl⟩
      · exact Relation.ReflTransGen.head ⟨path ++ [name], rfl⟩ (ih _ _ _)

/-- `readdir` changes the table only through `get_or_create_inode` calls. -/
theorem readdir_gocReach (b : Backend) (st : RfsFuse) (ino : Nat)
    (offset : Int) (cap : Nat) :
    GocReach st (readdir b st ino offset cap).2.2 := by
  unfold readdir
  cases mapGet st.inodes ino with
  | none => exact Relation.ReflTransGen.refl
  | some path =>
      simp only
      split
      · have hpr : GocReach st
            (if ino = ROOT_INODE then (ROOT_INODE, st)
             else get_or_create_inode st path.dropLast).2 := by
          split
          · exact Relation.ReflTransGen.refl
          · exact Relation.ReflTransGen.single ⟨path.dropLast, rfl⟩
        cases b st.pool_root (pathToStr path) with
        | ok listing =>
            exact Relation.ReflTransGen.trans hpr
              (addChildren_gocReach cap path listing 0 _ _)
        | error e => exact hpr
      · exact Relation.ReflTransGen.refl

/-- Every handler step is a chain of `get_or_create_inode` calls on the
table. -/
theorem step_gocReach {st st' : RfsFuse} (h : Step st st') :
    GocReach st st' := by
  cases h with
  | goc p => exact Relation.ReflTransGen.single ⟨p, rfl⟩
  | getattr_cb b now uid gid ino =>
      rw [getattr_state]
      exact Relation.ReflTransGen.refl
  | lookup_cb b now uid gid parent name =>
      exact lookup_gocReach b now uid gid st parent name
  | readdir_cb b ino offset cap => exact readdir_gocReach b st ino offset cap
  | open_cb ino flags => exact Relation.ReflTransGen.refl
  | read_cb ino fh offset size flags lock_owner =>
      exact Relation.ReflTransGen.refl

/-- Every state reachable by callbacks and `get_or_create_inode` calls
satisfies the identity-table invariant. -/
theorem inv_reachable {pool_root : String} {st : RfsFuse}
    (h : Reachable pool_root st) : Inv st := by
  induction h with
  | refl => exact inv_new pool_root
  | tail _ hstep ih => exact inv_gocReach (step_gocReach hstep) ih

theorem reachableGoc_reachable {pool_root : String} {st : RfsFuse}
    (h : ReachableGoc pool_root st) : Reachable pool_root st :=
  Relation.ReflTransGen.mono
    (fun _ _ hg => by obtain ⟨p, rfl⟩ := hg; exact Step.goc p) h

theorem inv_reachableGoc {pool_root : String} {st : RfsFuse}
    (h : ReachableGoc pool_root st) : Inv st :=
  inv_reachable (reachableGoc_reachable h)

/-! Characterisation of the `readdir` emission. -/

theorem emitList_length (path : FPath) (l : Listing) :
    ∀ (i : Nat) (st : RfsFuse), (emitList path l i st).1.length = l.length := by
  induction l with
  | nil => intro i st; rfl
  | cons hd rest ih =>
      intro i st
      obtain ⟨name, e⟩ := hd
      simp only [emitList, List.length_cons]
      rw [ih]

theorem emitList_paths_mono (path : FPath) (l : Listing) :
    ∀ (i : Nat) (st : RfsFuse) {q : FPath} {v : Nat},
      mapGet st.paths q = some v →
      mapGet (emitList path l i st).2.paths q = some v := by
  induction l with
  | nil => intro i st q v h; exact h
  | cons hd rest ih =>
      intro i st q v h
      obtain ⟨nm, en⟩ := hd
      simp only [emitList]
      exact ih _ _ (goc_paths_mono _ h)

/-- Pointwise description of the emitted children: entry `j` carries the
listed name and kind, offset `i + j + 2`, and an inode that the path → inode
map of the final state sends the child path to. -/
theorem emitList_get (path : FPath) (l : Listing) :
    ∀ (i j : Nat) (st : RfsFuse) (name : String) (e : Entry),
      l.get? j = some (name, e) →
      ∃ cino, (emitList path l i st).1.get? j =
          some ⟨cino, ((i + j : Nat) : Int) + 2, entryKind e, name⟩ ∧
        mapGet (emitList path l i st).2.paths (path ++ [name]) = some cino := by
  induction l with
  | nil => intro i j st name e h; cases h
  | cons hd rest ih =>
      intro i j st name e h
      obtain ⟨nm, en⟩ := hd
      cases j with
      | zero =>
          simp only [List.get?] at h
          cases h
          refine ⟨(get_or_create_inode st (path ++ [name])).1, ?_, ?_⟩
          · simp [emitList]
          · simp only [emitList]
            exact emitList_paths_mono path rest _ _
              (goc_paths_self st (path ++ [name]))
      | succ j' =>
          simp only [List.get?] at h
          obtain ⟨cino, h1, h2⟩ :=
            ih (i + 1) j' (get_or_create_inode st (path ++ [nm])).2 name e h
          refine ⟨cino, ?_, ?_⟩
          · simp only [emitList, List.get?]
            have harith : i + 1 + j' = i + (j' + 1) := by omega
            rw [harith] at h1
            exact h1
          · simp only [emitList]
            exact h2

theorem replyAdd_not_full {cap : Nat} {es : List DirEntry} (e : DirEntry)
    (h : es.length < cap) : replyAdd cap es e = (false, es ++ [e]) := by
  unfold replyAdd
  rw [if_neg (by omega)]

/-- While the buffer has room, the emission loop just appends. -/
theorem addChildren_cons_not_full (cap : Nat) (path : FPath) (name : String)
    (e : Entry) (rest : Listing) (i : Nat) (es : List DirEntry) (st : RfsFuse)
    (h : es.length < cap) :
    addChildren cap path ((name, e) :: rest) i es st =
      addChildren cap path rest (i + 1)
        (es ++ [⟨(get_or_create_inode st (path ++ [name])).1, (i : Int) + 2,
                 entryKind e, name⟩])
        (get_or_create_inode st (path ++ [name])).2 := by
  simp only [addChildren]
  rw [replyAdd_not_full _ h]
  simp

/-- With enough capacity, the buffered loop computes exactly `emitList`. -/
theorem addChildren_eq (cap : Nat) (path : FPath) (l : Listing) :
    ∀ (i : Nat) (es : List DirEntry) (st : RfsFuse),
      es.length + l.length ≤ cap →
      addChildren cap path l i es st =
        (es ++ (emitList path l i st).1, (emitList path l i st).2) := by
  induction l with
  | nil => intro i es st _; simp [addChildren, emitList]
  | cons hd rest ih =>
      intro i es st h
      obtain ⟨name, e⟩ := hd
      have hlt : es.length < cap := by
        simp only [List.length_cons] at h
        omega
      rw [addChildren_cons_not_full cap path name e rest i es st hlt]
      rw [ih (i + 1) _ _ (by simp only [List.length_append, List.length_cons,
        List.length_nil] at h ⊢; omega)]
      simp [emitList, List.append_assoc]

/-- `readdir` at offset 0 on a known inode with a successful listing: the
reply is built from `.`, `..` and the child loop. -/
theorem readdir_zero_eq (b : Backend) (st : RfsFuse) (ino : Nat) (path : FPath)
    (listing : Listing) (cap : Nat)
    (hino : mapGet st.inodes ino = some path)
    (hb : b st.pool_root (pathToStr path) = Except.ok listing)
    (hcap : 2 ≤ cap) :
    readdir b st ino 0 cap =
      (.ok,
        addChildren cap path listing 0
          [⟨ino, 0, .Directory, "."⟩,
           ⟨(if ino = ROOT_INODE then (ROOT_INODE, st)
             else get_or_create_inode st path.dropLast).1, 1, .Directory, ".."⟩]
          (if ino = ROOT_INODE then (ROOT_INODE, st)
           else get_or_create_inode st path.dropLast).2) := by
  have hc0 : ¬ (cap ≤ 0) := by omega
  have hc1 : ¬ (cap ≤ 1) := by omega
  simp [readdir, hino, hb, replyAdd, hc0, hc1]

/-- `readdir` at a nonzero offset on a known inode: no entries, success,
state untouched. -/
theorem readdir_nonzero_eq (b : Backend) (st : RfsFuse) (ino : Nat)
    (path : FPath) (cap : Nat) (offset : Int)
    (hino : mapGet st.inodes ino = some path) (hoff : offset ≠ 0) :
    readdir b st ino offset cap = (.ok, [], st) := by
  simp [readdir, hino, hoff]

/-! The claims. -/

/-- Claim C1, as stated, is false: `entry_to_attr` reports link count 1 even
for a Directory entry (fs.rs:79 sets `nlink: 1` unconditionally). -/
theorem entry_to_attr_nlink_two_false :
    ¬ (entry_to_attr 0 0 0 7 (Entry.Directory ⟨0, 0⟩)).nlink = 2 := by
  decide

/-- Claim C1 (amended): for every Entry, the attribute translation reports
link count 1, whether the Entry is a Directory or a File, regardless of the
identifier and the size and modification time of the Entry. -/
theorem entry_to_attr_nlink_one (now uid gid ino : Nat) (e : Entry) :
    (entry_to_attr now uid gid ino e).nlink = 1 := rfl

/-- Claim C6, as stated, is false at byte size `2 ^ 64 - 1`: the `u64`
computation `(size + 511) / 512` wraps, so the translated attributes report
0 blocks instead of `ceil(size / 512)`. -/
theorem entry_to_attr_blocks_ceil_false :
    (entry_to_attr 0 0 0 2 (Entry.File ⟨2 ^ 64 - 1, 0⟩)).blocks ≠
      (2 ^ 64 - 1 + 511) / 512 := by
  decide

/-- Claim C6 (amended): for every Entry with byte size `s`, the translated
attributes report size exactly `s` and block size fixed at 512, and whenever
`s + 511` does not overflow a `u64` (so for every
`s ≤ 2 ^ 64 - 512`; size 513 yields block count 2) the block count is exactly
`ceil(s / 512) = (s + 511) / 512`. -/
theorem entry_to_attr_size_blocks (now uid gid ino : Nat) (e : Entry)
    (h : entrySize e + 511 < 2 ^ 64) :
    (entry_to_attr now uid gid ino e).size = entrySize e ∧
    (entry_to_attr now uid gid ino e).blksize = 512 ∧
    (entry_to_attr now uid gid ino e).blocks = (entrySize e + 511) / 512 := by
  refine ⟨rfl, rfl, ?_⟩
  show (entrySize e + 511) % 2 ^ 64 / 512 = (entrySize e + 511) / 512
  rw [Nat.mod_eq_of_lt h]

/-- Witness for C6 at the scenario of the spec: a file entry of size 513 bytes is
reported with size 513 and block count `(513 + 511) / 512 = 2`. -/
theorem entry_to_attr_size_blocks_witness :
    entrySize (Entry.File ⟨513, 0⟩) + 511 < 2 ^ 64 ∧
    ((entry_to_attr 0 0 0 2 (Entry.File ⟨513, 0⟩)).size =
        entrySize (Entry.File ⟨513, 0⟩) ∧
      (entry_to_attr 0 0 0 2 (Entry.File ⟨513, 0⟩)).blksize = 512 ∧
      (entry_to_attr 0 0 0 2 (Entry.File ⟨513, 0⟩)).blocks =
        (entrySize (Entry.File ⟨513, 0⟩) + 511) / 512) :=
  ⟨by norm_num [entrySize],
   entry_to_attr_size_blocks 0 0 0 2 _ (by norm_num [entrySize])⟩

/-- Claim C9: for every identifier and every argument combination, `open`
replies "no such entry" and `read` replies "no such entry"; neither ever
succeeds and neither modifies the identity table. -/
theorem open_read_always_enoent (st : RfsFuse) (ino fh : Nat)
    (oflags rflags : Int) (offset : Int) (size : Nat)
    (lock_owner : Option Nat) :
    fsOpen st ino oflags = (.error ENOENT, st) ∧
    fsRead st ino fh offset size rflags lock_owner = (.error ENOENT, st) :=
  ⟨rfl, rfl⟩

/-- Claim C10: a `lookup` or `getattr` invocation that replies with an error
leaves the identity table (both mappings and the next-inode counter) exactly
as it was before the call. -/
theorem lookup_getattr_error_state (b : Backend) (now uid gid : Nat)
    (st : RfsFuse) (parent ino : Nat) (name : String) :
    (∀ e, (lookup b now uid gid st parent name).1 = .error e →
        (lookup b now uid gid st parent name).2 = st) ∧
    (∀ e, (getattr b now uid gid st ino).1 = .error e →
        (getattr b now uid gid st ino).2 = st) := by
  constructor
  · intro e
    unfold lookup
    dsimp only
    repeat' split
    all_goals intro he
    all_goals first
      | rfl
      | simp at he
  · intro e _
    exact getattr_state b now uid gid st ino

/-- Witness for C10: a `lookup` and a `getattr` on the unknown identifiers 5
and 9 of a fresh table reply "no such entry" and leave the table unchanged. -/
theorem lookup_getattr_error_state_witness :
    ((lookup (fun _ _ => Except.error ()) 0 0 0 (RfsFuse.new "") 5 "x").1 =
        EntryReply.error ENOENT ∧
      (lookup (fun _ _ => Except.error ()) 0 0 0 (RfsFuse.new "") 5 "x").2 =
        RfsFuse.new "") ∧
    ((getattr (fun _ _ => Except.error ()) 0 0 0 (RfsFuse.new "") 9).1 =
        AttrReply.error ENOENT ∧
      (getattr (fun _ _ => Except.error ()) 0 0 0 (RfsFuse.new "") 9).2 =
        RfsFuse.new "") :=
  ⟨⟨rfl,
    (lookup_getattr_error_state (fun _ _ => Except.error ()) 0 0 0
      (RfsFuse.new "") 5 9 "x").1 ENOENT rfl⟩,
   ⟨rfl,
    (lookup_getattr_error_state (fun _ _ => Except.error ()) 0 0 0
      (RfsFuse.new "") 5 9 "x").2 ENOENT rfl⟩⟩

/-- Claim C3: for every path `p` and every table state reachable by any
sequence of `get_or_create_inode` calls from a freshly constructed table,
resolving (through the inode → path map) the identifier returned by
`get_or_create_inode` for `p` yields `p`. -/
theorem resolve_get_or_create {pool_root : String} {st : RfsFuse}
    (h : ReachableGoc pool_root st) (p : FPath) :
    mapGet (get_or_create_inode st p).2.inodes (get_or_create_inode st p).1 =
      some p := by
  have hinv := inv_reachableGoc h
  cases hp : mapGet st.paths p with
  | some i =>
      rw [goc_of_some hp]
      exact hinv.agree2 p i hp
  | none =>
      rw [goc_of_none hp]
      simp

/-- Witness for C3 on a fresh table and the path `/a`. -/
theorem resolve_get_or_create_witness :
    ReachableGoc "" (RfsFuse.new "") ∧
    mapGet (get_or_create_inode (RfsFuse.new "") ["a"]).2.inodes
        (get_or_create_inode (RfsFuse.new "") ["a"]).1 = some ["a"] :=
  ⟨Relation.ReflTransGen.refl,
   resolve_get_or_create Relation.ReflTransGen.refl ["a"]⟩

/-- Claim C4: in every table state reachable from construction by
`get_or_create_inode` calls and handler callbacks, the two mappings agree in
both directions, exactly one identifier maps to `/` (namely `ROOT_INODE = 1`),
and identifier 1 maps to no path other than `/`. -/
theorem identity_table_agreement {pool_root : String} {st : RfsFuse}
    (h : Reachable pool_root st) :
    (∀ i p, mapGet st.inodes i = some p → mapGet st.paths p = some i) ∧
    (∀ p i, mapGet st.paths p = some i → mapGet st.inodes i = some p) ∧
    (∀ i, mapGet st.inodes i = some [] ↔ i = ROOT_INODE) ∧
    (∀ p, mapGet st.inodes ROOT_INODE = some p → p = []) := by
  have hinv := inv_reachable h
  refine ⟨hinv.agree1, hinv.agree2, ?_, ?_⟩
  · intro i
    constructor
    · exact hinv.root_uniq i
    · rintro rfl
      exact hinv.root_res
  · intro p hp
    rw [hinv.root_res] at hp
    cases hp
    rfl

/-- Witness for C4 on a freshly constructed table. -/
theorem identity_table_agreement_witness :
    Reachable "" (RfsFuse.new "") ∧
    ((∀ i p, mapGet (RfsFuse.new "").inodes i = some p →
        mapGet (RfsFuse.new "").paths p = some i) ∧
     (∀ p i, mapGet (RfsFuse.new "").paths p = some i →
        mapGet (RfsFuse.new "").inodes i = some p) ∧
     (∀ i, mapGet (RfsFuse.new "").inodes i = some [] ↔ i = ROOT_INODE) ∧
     (∀ p, mapGet (RfsFuse.new "").inodes ROOT_INODE = some p → p = [])) :=
  ⟨Relation.ReflTransGen.refl,
   identity_table_agreement Relation.ReflTransGen.refl⟩

/-- Claim C7: allocation starts at 2 (`new` sets the counter to 2), every
allocating `get_or_create_inode` call returns an identifier strictly greater
than every identifier present in the table, and no handler step ever removes
an identifier or remaps it to a different path. -/
theorem inode_allocation_monotone {pool_root : String} {st : RfsFuse}
    (h : Reachable pool_root st) :
    (RfsFuse.new pool_root).next_inode = 2 ∧
    (∀ p, mapGet st.paths p = none →
        (get_or_create_inode st p).1 = st.next_inode ∧
        ∀ i q, mapGet st.inodes i = some q →
          i < (get_or_create_inode st p).1) ∧
    (∀ st', Step st st' →
        ∀ i q, mapGet st.inodes i = some q → mapGet st'.inodes i = some q) := by
  have hinv := inv_reachable h
  refine ⟨rfl, ?_, ?_⟩
  · intro p hp
    constructor
    · rw [goc_of_none hp]
    · intro i q hi
      rw [goc_of_none hp]
      exact hinv.fresh i q hi
  · intro st' hstep i q hi
    exact gocReach_inodes_mono (step_gocReach hstep) hinv hi

/-- Witness for C7: on a fresh table the path `/a` is unallocated and
`get_or_create_inode` hands it the counter value 2. -/
theorem inode_allocation_monotone_witness :
    (Reachable "" (RfsFuse.new "") ∧
      mapGet (RfsFuse.new "").paths ["a"] = none) ∧
    (get_or_create_inode (RfsFuse.new "") ["a"]).1 =
      (RfsFuse.new "").next_inode :=
  ⟨⟨Relation.ReflTransGen.refl, rfl⟩,
   ((inode_allocation_monotone Relation.ReflTransGen.refl).2.1 ["a"] rfl).1⟩

/-- Claim C5: `lookup(parent, name)` fails "no such entry" when the parent
identifier is unknown; on a successful parent listing without `name` it fails
"no such entry"; on a successful listing containing `name` it returns the
identifier `get_or_create_inode` assigns to the parent path joined with
`name`, the translated attributes, and cache validity `TTL = 1` second; a
backend fetch failure is reported as an I/O failure. -/
theorem lookup_spec (b : Backend) (now uid gid : Nat) (st : RfsFuse)
    (parent : Nat) (name : String) :
    TTL = 1 ∧
    (mapGet st.inodes parent = none →
        lookup b now uid gid st parent name = (.error ENOENT, st)) ∧
    (∀ ppath listing, mapGet st.inodes parent = some ppath →
        b st.pool_root (pathToStr ppath) = Except.ok listing →
        mapGet listing name = none →
        lookup b now uid gid st parent name = (.error ENOENT, st)) ∧
    (∀ ppath listing entry, mapGet st.inodes parent = some ppath →
        b st.pool_root (pathToStr ppath) = Except.ok listing →
        mapGet listing name = some entry →
        lookup b now uid gid st parent name =
          (.entry TTL
            (entry_to_attr now uid gid
              (get_or_create_inode st (ppath ++ [name])).1 entry) 0,
           (get_or_create_inode st (ppath ++ [name])).2)) ∧
    (∀ ppath err, mapGet st.inodes parent = some ppath →
        b st.pool_root (pathToStr ppath) = Except.error err →
        lookup b now uid gid st parent name = (.error EIO, st)) := by
  refine ⟨rfl, ?_, ?_, ?_, ?_⟩
  · intro h
    simp [lookup, h]
  · intro ppath listing h1 h2 h3
    simp [lookup, h1, h2, h3]
  · intro ppath listing entry h1 h2 h3
    simp [lookup, h1, h2, h3]
  · intro ppath err h1 h2
    simp [lookup, h1, h2]

/-- Witness for C5, covering all four cases on a fresh table: unknown parent
identifier 7; the spec scenario `lookup(root, "missing.txt")` on an empty
listing; a successful lookup of `a.txt`; and a failing backend. -/
theorem lookup_spec_witness :
    lookup (fun _ _ => Except.ok []) 0 0 0 (RfsFuse.new "") 7 "x" =
      (.error ENOENT, RfsFuse.new "") ∧
    lookup (fun _ _ => Except.ok []) 0 0 0 (RfsFuse.new "") 1 "missing.txt" =
      (.error ENOENT, RfsFuse.new "") ∧
    lookup (fun _ _ => Except.ok [("a.txt", Entry.File ⟨513, 0⟩)]) 0 0 0
        (RfsFuse.new "") 1 "a.txt" =
      (.entry TTL
        (entry_to_attr 0 0 0
          (get_or_create_inode (RfsFuse.new "") (([] : FPath) ++ ["a.txt"])).1
          (Entry.File ⟨513, 0⟩)) 0,
       (get_or_create_inode (RfsFuse.new "") (([] : FPath) ++ ["a.txt"])).2) ∧
    lookup (fun _ _ => Except.error ()) 0 0 0 (RfsFuse.new "") 1 "x" =
      (.error EIO, RfsFuse.new "") :=
  ⟨(lookup_spec (fun _ _ => Except.ok []) 0 0 0 (RfsFuse.new "") 7 "x").2.1
      rfl,
   (lookup_spec (fun _ _ => Except.ok []) 0 0 0 (RfsFuse.new "") 1
      "missing.txt").2.2.1 [] [] rfl rfl rfl,
   (lookup_spec (fun _ _ => Except.ok [("a.txt", Entry.File ⟨513, 0⟩)]) 0 0 0
      (RfsFuse.new "") 1 "a.txt").2.2.2.1 [] [("a.txt", Entry.File ⟨513, 0⟩)]
      (Entry.File ⟨513, 0⟩) rfl rfl rfl,
   (lookup_spec (fun _ _ => Except.error ()) 0 0 0 (RfsFuse.new "") 1
      "x").2.2.2.2 [] () rfl rfl⟩

/-- The pool-resolution error surfaces from the first offending mount. -/
theorem resolveMounts_missing (pools : List PoolDef) (m : MountDef)
    (post : List MountDef) (hm : poolMapGet pools m.pool_id = none) :
    ∀ pre : List MountDef,
      (∀ m' ∈ pre, (poolMapGet pools m'.pool_id).isSome) →
      resolveMounts pools (pre ++ m :: post) =
        .error (.MountConfig (missingPoolMsg m)) := by
  intro pre
  induction pre with
  | nil =>
      intro _
      simp only [List.nil_append, resolveMounts, hm]
  | cons m' pre' ih =>
      intro hpre
      have hm' := hpre m' (by simp)
      obtain ⟨path, hpath⟩ := Option.isSome_iff_exists.mp hm'
      have hrest := ih (fun x hx => hpre x (by simp [hx]))
      simp only [List.cons_append, resolveMounts, hpath, List.append_eq,
        hrest]

/-- Claim C8: when a mount definition references a pool identifier absent
from the loaded pool definitions (the pool of every earlier mount being
present), the resolution in `run` fails with a `MountConfig` error whose message names the
offending mount point and pool identifier, and `main` exits with code 1. -/
theorem run_missing_pool_exits_one (pools : List PoolDef)
    (pre post : List MountDef) (m : MountDef)
    (hpre : ∀ m' ∈ pre, (poolMapGet pools m'.pool_id).isSome)
    (hm : poolMapGet pools m.pool_id = none) :
    runResolve pools (pre ++ m :: post) =
      .error (.MountConfig (missingPoolMsg m)) ∧
    (∃ a b c, missingPoolMsg m =
        a ++ m.mount_point ++ b ++ toString m.pool_id ++ c) ∧
    mainExitCode (runResolve pools (pre ++ m :: post)) = 1 := by
  have hres := resolveMounts_missing pools m post hm pre hpre
  have hne : (pre ++ m :: post).isEmpty = false := by
    cases pre <;> rfl
  refine ⟨?_,
    ⟨"Mount point \x27", "\x27 references non-existent pool_id \x27",
      "\x27", rfl⟩, ?_⟩
  · simp [runResolve, hne, hres, Except.map]
  · simp [runResolve, hne, hres, Except.map, mainExitCode]

/-- Witness for C8 at the scenario of the spec: a mount of pool id 7 when only
pool id 3 is defined yields the configuration error and exit code 1. -/
theorem run_missing_pool_exits_one_witness :
    poolMapGet [⟨3, "p3"⟩] 7 = none ∧
    (runResolve [⟨3, "p3"⟩] ([] ++ (⟨7, "/mnt/x"⟩ : MountDef) :: []) =
        .error (.MountConfig (missingPoolMsg ⟨7, "/mnt/x"⟩)) ∧
      (∃ a b c, missingPoolMsg (⟨7, "/mnt/x"⟩ : MountDef) =
          a ++ (⟨7, "/mnt/x"⟩ : MountDef).mount_point ++ b ++
            toString (⟨7, "/mnt/x"⟩ : MountDef).pool_id ++ c) ∧
      mainExitCode
        (runResolve [⟨3, "p3"⟩] ([] ++ (⟨7, "/mnt/x"⟩ : MountDef) :: [])) =
        1) :=
  ⟨rfl,
   run_missing_pool_exits_one [⟨3, "p3"⟩] [] [] ⟨7, "/mnt/x"⟩
     (fun m' hm' => absurd hm' (List.not_mem_nil m')) rfl⟩

/-- Claim C2: on a known identifier whose listing fetch succeeds, `readdir`
at offset 0 (with room in the reply buffer) replies ok and emits `.` (the
identifier itself) at offset 0, `..` (the parent identifier, the root for
the root) at offset 1, then every (identifier, kind, name) of the listing in
order at offsets 2, 3, …, each child identifier resolving to the child
path; at any nonzero offset it emits nothing and succeeds. -/
theorem readdir_emission (b : Backend) (st : RfsFuse) (ino : Nat)
    (path : FPath) (listing : Listing) (cap : Nat)
    (hino : mapGet st.inodes ino = some path)
    (hb : b st.pool_root (pathToStr path) = Except.ok listing)
    (hcap : 2 + listing.length ≤ cap) :
    ((readdir b st ino 0 cap).1 = .ok ∧
     (readdir b st ino 0 cap).2.1.length = 2 + listing.length ∧
     (readdir b st ino 0 cap).2.1.get? 0 =
       some ⟨ino, 0, .Directory, "."⟩ ∧
     (readdir b st ino 0 cap).2.1.get? 1 =
       some ⟨(if ino = ROOT_INODE then (ROOT_INODE, st)
              else get_or_create_inode st path.dropLast).1,
             1, .Directory, ".."⟩ ∧
     (∀ j name e, listing.get? j = some (name, e) →
        ∃ cino, (readdir b st ino 0 cap).2.1.get? (j + 2) =
            some ⟨cino, (j : Int) + 2, entryKind e, name⟩ ∧
          mapGet (readdir b st ino 0 cap).2.2.paths (path ++ [name]) =
            some cino)) ∧
    (∀ offset : Int, offset ≠ 0 →
        readdir b st ino offset cap = (.ok, [], st)) := by
  have hzero := readdir_zero_eq b st ino path listing cap hino hb (by omega)
  set pr := (if ino = ROOT_INODE then (ROOT_INODE, st)
             else get_or_create_inode st path.dropLast) with hpr
  have hadd := addChildren_eq cap path listing 0
      [⟨ino, 0, .Directory, "."⟩, ⟨pr.1, 1, .Directory, ".."⟩] pr.2
      (by simpa using hcap)
  rw [hadd] at hzero
  refine ⟨⟨?_, ?_, ?_, ?_, ?_⟩, ?_⟩
  · rw [hzero]
  · rw [hzero]
    simp only [List.length_append, List.length_cons, List.length_nil,
      emitList_length]
  · rw [hzero]
    rfl
  · rw [hzero]
    rfl
  · intro j name e hj
    obtain ⟨cino, h1, h2⟩ := emitList_get path listing 0 j pr.2 name e hj
    rw [hzero]
    refine ⟨cino, ?_, h2⟩
    have happ :
        (([⟨ino, 0, .Directory, "."⟩, ⟨pr.1, 1, .Directory, ".."⟩] :
            List DirEntry) ++ (emitList path listing 0 pr.2).1).get? (j + 2) =
          (emitList path listing 0 pr.2).1.get? j := by
      rw [List.get?_append_right (by simp)]
      simp
    rw [happ, h1]
    simp
  · intro offset hoff
    exact readdir_nonzero_eq b st ino path cap offset hino hoff

/-- Witness for C2 at the scenario of the spec: `readdir` on the root of a fresh
table with listing `docs` (directory), `a.txt` (file) emits `.` at offset 0,
and a second invocation at offset 7 emits nothing and succeeds. -/
theorem readdir_emission_witness :
    (mapGet (RfsFuse.new "").inodes 1 = some [] ∧
      2 + ([("docs", Entry.Directory ⟨0, 0⟩), ("a.txt", Entry.File ⟨100, 0⟩)] :
        Listing).length ≤ 10) ∧
    (readdir
        (fun _ _ => Except.ok
          [("docs", Entry.Directory ⟨0, 0⟩), ("a.txt", Entry.File ⟨100, 0⟩)])
        (RfsFuse.new "") 1 0 10).2.1.get? 0 =
      some ⟨1, 0, .Directory, "."⟩ ∧
    readdir
        (fun _ _ => Except.ok
          [("docs", Entry.Directory ⟨0, 0⟩), ("a.txt", Entry.File ⟨100, 0⟩)])
        (RfsFuse.new "") 1 7 10 =
      (.ok, [], RfsFuse.new "") :=
  ⟨⟨rfl, by norm_num⟩,
   (readdir_emission _ (RfsFuse.new "") 1 [] _ 10 rfl rfl
      (by norm_num)).1.2.2.1,
   (readdir_emission _ (RfsFuse.new "") 1 [] _ 10 rfl rfl
      (by norm_num)).2 7 (by norm_num)⟩

end RfsFuseModel
